import Mathlib

/-!
Verification of the incremental-translation engine of
`claude-code-changelog-translator` (`src/translate.py`).

Text is modelled as `List Char` (named `Str`), mirroring Python `str`
character-by-character.  Python string methods used by the source
(`splitlines`, `strip`, `startswith`, `find`, slicing, `"\n".join`) are
embedded as executable functions below; file-backed persisted state is an
explicit record, and the outside collaborators (the LLM translation API)
are oracles passed to the orchestrator.
-/

set_option autoImplicit false
set_option maxRecDepth 100000

namespace Translate

/-- Text, modelled as the list of its characters (Python `str`). -/
abbrev Str := List Char

/-- Python `s.startswith(pat)`. -/
def startswith (s pat : Str) : Bool :=
  match pat, s with
  | [], _ => true
  | _ :: _, [] => false
  | p :: ps, c :: cs => p == c && startswith cs ps

/-- Python whitespace for `str.strip` (ASCII range, which is all the
source's documents use). -/
def isPySpace (c : Char) : Bool :=
  c == ' ' || c == '\t' || c == '\n' || c == '\r' || c == '\x0b' || c == '\x0c'

/-- Python `s.strip()`. -/
def strip (s : Str) : Str :=
  ((s.dropWhile isPySpace).reverse.dropWhile isPySpace).reverse

/-- Python `s.splitlines()` for `\n`-separated text: no trailing empty
line for a trailing newline, and `""` gives `[]`. -/
def splitlines : Str → List Str
  | [] => []
  | c :: rest =>
    if c = '\n' then [] :: splitlines rest
    else
      match splitlines rest with
      | [] => [[c]]
      | l :: ls => (c :: l) :: ls

/-- Python `"\n".join(lines)`. -/
def nlJoin (lines : List Str) : Str :=
  List.intercalate ['\n'] lines

/-- First index (or `none`) at which `pat` occurs in `s`; Python
`s.find(pat)` is this with `-1` for `none`. -/
def strFindAux : Str → Str → Option Nat
  | [], pat => if startswith [] pat then some 0 else none
  | c :: t, pat =>
    if startswith (c :: t) pat then some 0
    else (strFindAux t pat).map (· + 1)

/-- Python `s.find(pat)`: first occurrence index, `-1` when absent. -/
def strFind (s pat : Str) : Int :=
  match strFindAux s pat with
  | some n => (n : Int)
  | none => -1

/-! ### SHA-256 (`hashlib.sha256(...).hexdigest()` from `calculate_hash`)

32-bit machine words are `Nat` reduced modulo `2^32` at each operation.
The round and initial-state constants are not transcribed but computed,
as the FIPS 180-4 standard defines them: the first 32 bits of the
fractional parts of the cube roots (resp. square roots) of the first 64
(resp. 8) primes. -/

def w32 : Nat := 4294967296

/-- Right-rotation of a 32-bit word, for `1 ≤ n ≤ 31`. -/
def rotr (n x : Nat) : Nat := ((x >>> n) ||| (x <<< (32 - n))) % w32

/-- Bitwise complement of a 32-bit word. -/
def not32 (x : Nat) : Nat := x ^^^ (w32 - 1)

/-- One step of a bitwise binary search for the integer cube root. -/
def icbrtStep (n r bit : Nat) : Nat :=
  let r' := r + (1 <<< bit)
  if r' * r' * r' ≤ n then r' else r

/-- Integer cube root `⌊n^(1/3)⌋` for `n < 2^108` (bitwise binary search
from the most significant candidate bit down). -/
def icbrt (n : Nat) : Nat :=
  (List.range 36).reverse.foldl (icbrtStep n) 0

/-- One step of a bitwise binary search for the integer square root. -/
def isqrtStep (n r bit : Nat) : Nat :=
  let r' := r + (1 <<< bit)
  if r' * r' ≤ n then r' else r

/-- Integer square root `⌊√n⌋` for `n < 2^72` (bitwise binary search). -/
def isqrt (n : Nat) : Nat :=
  (List.range 36).reverse.foldl (isqrtStep n) 0

/-- First 32 bits of the fractional part of `√p`. -/
def fracSqrt (p : Nat) : Nat := isqrt (p * 2 ^ 64) % w32

/-- First 32 bits of the fractional part of `p^(1/3)`. -/
def fracCbrt (p : Nat) : Nat := icbrt (p * 2 ^ 96) % w32

/-- The first 64 primes. -/
def primes64 : List Nat :=
  [2, 3, 5, 7, 11, 13, 17, 19, 23, 29, 31, 37, 41, 43, 47, 53,
   59, 61, 67, 71, 73, 79, 83, 89, 97, 101, 103, 107, 109, 113, 127, 131,
   137, 139, 149, 151, 157, 163, 167, 173, 179, 181, 191, 193, 197, 199, 211, 223,
   227, 229, 233, 239, 241, 251, 257, 263, 269, 271, 277, 281, 283, 293, 307, 311]

/-- SHA-256 round constants `K`. -/
def shaK : List Nat := primes64.map fracCbrt

/-- SHA-256 initial hash state `H⁰`. -/
def shaH0 : List Nat := (primes64.take 8).map fracSqrt

def chV (e f g : Nat) : Nat := (e &&& f) ^^^ (not32 e &&& g)

def majV (a b c : Nat) : Nat := (a &&& b) ^^^ (a &&& c) ^^^ (b &&& c)

def bigSigma0 (x : Nat) : Nat := rotr 2 x ^^^ rotr 13 x ^^^ rotr 22 x

def bigSigma1 (x : Nat) : Nat := rotr 6 x ^^^ rotr 11 x ^^^ rotr 25 x

def smallSigma0 (x : Nat) : Nat := rotr 7 x ^^^ rotr 18 x ^^^ (x >>> 3)

def smallSigma1 (x : Nat) : Nat := rotr 17 x ^^^ rotr 19 x ^^^ (x >>> 10)

/-- UTF-8 encoding of one character (Python `str.encode()` acts
per-character like this). -/
def utf8Encode (c : Char) : List Nat :=
  let n := c.toNat
  if n < 0x80 then [n]
  else if n < 0x800 then [0xC0 ||| (n >>> 6), 0x80 ||| (n &&& 0x3F)]
  else if n < 0x10000 then
    [0xE0 ||| (n >>> 12), 0x80 ||| ((n >>> 6) &&& 0x3F), 0x80 ||| (n &&& 0x3F)]
  else
    [0xF0 ||| (n >>> 18), 0x80 ||| ((n >>> 12) &&& 0x3F),
     0x80 ||| ((n >>> 6) &&& 0x3F), 0x80 ||| (n &&& 0x3F)]

/-- Python `content.encode()` (UTF-8 bytes). -/
def encodeUtf8 (s : Str) : List Nat := (s.map utf8Encode).flatten

/-- SHA-256 padding: `0x80`, zeros to 56 mod 64, 8-byte big-endian bit length. -/
def shaPad (msg : List Nat) : List Nat :=
  let bitLen := 8 * msg.length
  let zeros := (64 + 56 - (msg.length + 1) % 64) % 64
  msg ++ [0x80] ++ List.replicate zeros 0 ++
    (List.range 8).map (fun i => (bitLen >>> (8 * (7 - i))) % 256)

/-- Split a byte list into 64-byte blocks (`fuel` is the list length). -/
def chunks64Aux : Nat → List Nat → List (List Nat)
  | 0, _ => []
  | _, [] => []
  | fuel + 1, l => l.take 64 :: chunks64Aux fuel (l.drop 64)

def chunks64 (l : List Nat) : List (List Nat) := chunks64Aux l.length l

/-- 16 big-endian 32-bit words of one 64-byte block. -/
def blockWords (block : List Nat) : List Nat :=
  (List.range 16).map fun i =>
    (block.getD (4 * i) 0 <<< 24) ||| (block.getD (4 * i + 1) 0 <<< 16) |||
    (block.getD (4 * i + 2) 0 <<< 8) ||| block.getD (4 * i + 3) 0

/-- Extend the 16 message words to the 64-entry message schedule. -/
def msgSchedule (w16 : List Nat) : List Nat :=
  (List.range 48).foldl
    (fun w _ =>
      let n := w.length
      w ++ [(smallSigma1 (w.getD (n - 2) 0) + w.getD (n - 7) 0 +
             smallSigma0 (w.getD (n - 15) 0) + w.getD (n - 16) 0) % w32])
    w16

/-- One SHA-256 compression round on the 8-word working state. -/
def shaRound (st : List Nat) (wk : Nat × Nat) : List Nat :=
  match st with
  | [a, b, c, d, e, f, g, h] =>
    let t1 := (h + bigSigma1 e + chV e f g + wk.2 + wk.1) % w32
    let t2 := (bigSigma0 a + majV a b c) % w32
    [(t1 + t2) % w32, a, b, c, (d + t1) % w32, e, f, g]
  | _ => st

/-- Process one 64-byte block. -/
def shaBlock (H : List Nat) (block : List Nat) : List Nat :=
  let ws := msgSchedule (blockWords block)
  let st := (ws.zip shaK).foldl shaRound H
  (H.zip st).map fun p => (p.1 + p.2) % w32

/-- SHA-256 state of a byte string, as 8 words. -/
def sha256Words (msg : List Nat) : List Nat :=
  (chunks64 (shaPad msg)).foldl shaBlock shaH0

def hexChar (n : Nat) : Char := "0123456789abcdef".toList.getD n '0'

/-- Lowercase hex of one 32-bit word, 8 digits. -/
def wordHex (w : Nat) : Str :=
  (List.range 8).map fun i => hexChar ((w >>> (4 * (7 - i))) % 16)

/-- `calculate_hash` (src/translate.py:122-124):
`hashlib.sha256(content.encode()).hexdigest()`. -/
def calculate_hash (content : Str) : Str :=
  ((sha256Words (encodeUtf8 content)).map wordHex).flatten

/-! ### Configuration constants (src/translate.py:30-32) -/

/-- `self.full_translation_interval = 10`. -/
def full_translation_interval : Nat := 10

/-- `self.max_versions_to_translate = 50`. -/
def max_versions_to_translate : Nat := 50

/-! ### extract_recent_versions (src/translate.py:84-107) -/

/-- The version-heading test of the loop at src/translate.py:97:
`line.strip().startswith('## ') and not line.strip().startswith('## Changelog')`. -/
def isVersionLine (line : Str) : Bool :=
  startswith (strip line) "## ".toList &&
    !startswith (strip line) "## Changelog".toList

/-- First footer line appended on reaching the cap: `"\n---"`. -/
def versionsFooter1 : Str := "\n---".toList

/-- Second footer line: `f"\n*最新{max_versions}バージョンのみ表示*"`. -/
def versionsFooter2 (max_versions : Nat) : Str :=
  "\n*最新".toList ++ (Nat.repr max_versions).toList ++ "バージョンのみ表示*".toList

/-- The `for line in lines` loop of `extract_recent_versions`, carrying
`versions_found`. -/
def ervLoop (max_versions : Nat) : List Str → Nat → List Str
  | [], _ => []
  | line :: rest, versions_found =>
    if isVersionLine line then
      if versions_found + 1 ≥ max_versions then
        [line, versionsFooter1, versionsFooter2 max_versions]
      else
        line :: ervLoop max_versions rest (versions_found + 1)
    else
      line :: ervLoop max_versions rest versions_found

/-- `extract_recent_versions` (src/translate.py:84-107): keep lines up to
the `max_versions`-th version heading, then the two footer entries, joined
with `"\n"`. -/
def extract_recent_versions (content : Str) (max_versions : Nat) : Str :=
  nlJoin (ervLoop max_versions (splitlines content) 0)

/-! ### extract_new_entries (src/translate.py:139-162) -/

/-- The header scan at src/translate.py:151-155: first index `i` in the
first 10 lines with `line.strip().startswith('# ')` gives `i + 1`, else 0. -/
def fhlLoop : List Str → Nat → Nat
  | [], _ => 0
  | line :: rest, i =>
    if startswith (strip line) "# ".toList then i + 1 else fhlLoop rest (i + 1)

def findHeaderLines (new_lines : List Str) : Nat :=
  fhlLoop (new_lines.take 10) 0

/-- `extract_new_entries` (src/translate.py:139-162). Returns `none` for
Python `None`; note the source's `new_lines[start_index:end_index]` is
`drop start` then `take (end - start)`. -/
def extract_new_entries (old_content new_content : Str) : Option Str :=
  let old_lines := splitlines old_content
  let new_lines := splitlines new_content
  let diff_count : Int := (new_lines.length : Int) - (old_lines.length : Int)
  if diff_count ≤ 0 then none
  else
    let header_lines := findHeaderLines new_lines
    let start_index := header_lines
    let end_index := min (diff_count.toNat + header_lines + 50) new_lines.length
    some (nlJoin ((new_lines.drop start_index).take (end_index - start_index)))

/-! ### Persisted state and should_do_full_translation (src/translate.py:164-182)

The five files the program reads/writes become one record; `none` is a
missing file.  For `translation_count.txt` the bare `except` of
`should_do_full_translation` treats a missing or unparsable file as
count 0, so the field is the parsed count or `none`. -/

structure FileState where
  /-- `last_update.txt`: the stored fingerprint. -/
  last_update : Option Str
  /-- `previous_content.md`: the stored raw document. -/
  previous_content : Option Str
  /-- `translation_count.txt`: the rolling cycle counter. -/
  translation_count : Option Nat
  /-- `translated/changelog_ja.md`: the headered translated artifact. -/
  output_file : Option Str
  /-- `translated/note_ready.md`: the header-stripped artifact. -/
  note_ready : Option Str
  deriving DecidableEq

/-- `should_do_full_translation` (src/translate.py:164-182): read the
counter (0 on any read failure), increment and store it; at
`full_translation_interval` store 0 and answer `true`. -/
def should_do_full_translation (st : FileState) : Bool × FileState :=
  let count := st.translation_count.getD 0 + 1
  if count ≥ full_translation_interval then
    (true, { st with translation_count := some 0 })
  else
    (false, { st with translation_count := some count })

/-! ### Translation client (src/translate.py:184-279)

The Anthropic streaming call is the outside capability: an oracle maps
the submitted text, the `is_incremental` flag and the 0-based attempt
number to either an error message or `(translated_text, input_tokens,
output_tokens)`.  `_translate_with_stream` wraps the oracle result into a
usage record; its float cost arithmetic is modelled exactly over `ℚ`. -/

/-- A Python exception rendered as `str(e)`. -/
abbrev Err := Str

abbrev Oracle := Str → Bool → Nat → Except Err (Str × Nat × Nat)

/-- The usage dict built at src/translate.py:256-277. -/
structure Usage where
  input_tokens : Nat
  output_tokens : Nat
  total_cost : ℚ
  deriving DecidableEq

/-- Cost computation of src/translate.py:262-264:
`(input/1e6)*3 + (output/1e6)*15`. -/
def mkUsage (input_tokens output_tokens : Nat) : Usage :=
  { input_tokens := input_tokens
    output_tokens := output_tokens
    total_cost := ((input_tokens : ℚ) / 1000000) * 3 + ((output_tokens : ℚ) / 1000000) * 15 }

/-- `_translate_with_stream(content, is_incremental)` as seen through the
oracle (src/translate.py:202-279). -/
def translate_with_stream (oracle : Oracle) (content : Str) (is_incremental : Bool)
    (attempt : Nat) : Except Err (Str × Usage) :=
  (oracle content is_incremental attempt).map fun r => (r.1, mkUsage r.2.1 r.2.2)

/-- The retry loop of `translate_changelog` (src/translate.py:187-200).
`attempt` is the 0-based attempt number, `remaining` the number of
retries still allowed after it; the second component records the backoff
sleeps (`(attempt+1) * 10` seconds) taken between consecutive attempts. -/
def attemptLoop (f : Nat → Except Err (Str × Usage)) :
    Nat → Nat → Except Err (Str × Usage) × List Nat
  | attempt, 0 => (f attempt, [])
  | attempt, remaining + 1 =>
    match f attempt with
    | .ok v => (.ok v, [])
    | .error _ =>
      let r := attemptLoop f (attempt + 1) remaining
      (r.1, (attempt + 1) * 10 :: r.2)

/-- `translate_changelog` (src/translate.py:184-200): up to `max_retries`
attempts (the source's only call sites use the default 3), returning the
first success or propagating the last error, plus the backoff trace. -/
def translate_changelog (f : Nat → Except Err (Str × Usage)) (max_retries : Nat) :
    Except Err (Str × Usage) × List Nat :=
  attemptLoop f 0 (max_retries - 1)

/-! ### Document merging (src/translate.py:281-328)

The generated header depends on the run timestamp
(`get_jst_now().strftime('%Y年%m月%d日 %H:%M')`), passed in as `ts`. -/

/-- The header-terminator `'---\n\n'` searched for at src/translate.py:306. -/
def headerSep : Str := "---\n\n".toList

/-- The generated header up to (excluding) its terminating `"---\n\n"`. -/
def headerBase (ts : Str) : Str :=
  "# Claude Code チェンジログ（日本語訳）\n\n> 最終更新: ".toList ++ ts ++
  "（日本時間）  \n> 原文: https://raw.githubusercontent.com/anthropics/claude-code/main/CHANGELOG.md  \n> 表示: 最新50バージョン\n\n".toList

/-- The full generated header of src/translate.py:285-293 and 311-319
(both f-strings are identical). -/
def mkHeader (ts : Str) : Str := headerBase ts ++ headerSep

/-- `save_translation` (src/translate.py:281-298): write header+content
to the output file and bare content to the note file. -/
def save_translation (ts : Str) (content : Str) (st : FileState) : FileState :=
  { st with
    output_file := some (mkHeader ts ++ content)
    note_ready := some content }

/-- `append_translation` (src/translate.py:300-328): split the existing
artifact at `existing.find('---\n\n') + 5` (character offset 4 when the
terminator is absent, since `find` gives `-1`), prepend the new fragment
with a blank line, regenerate the header; fall back to `save_translation`
only when the artifact file is missing. -/
def append_translation (ts : Str) (new_content : Str) (st : FileState) : FileState :=
  match st.output_file with
  | none => save_translation ts new_content st
  | some existing =>
    let header_end := (strFind existing headerSep + 5).toNat
    let old_translation := existing.drop header_end
    let updated_translation := new_content ++ "\n\n".toList ++ old_translation
    { st with
      output_file := some (mkHeader ts ++ updated_translation)
      note_ready := some updated_translation }

/-! ### The orchestrator `run` (src/translate.py:382-453)

Prints and the Discord notification are I/O-only and not modelled; a
raised exception is the `.error` result (the source notifies and
re-raises).  The returned `FileState` is the state of the five files when
the run ends, including on the error path. -/

/-- The branch the run announces (`全文翻訳モード` / `差分翻訳モード`).
The in-branch fallback to a full translation after an empty extraction
keeps the `incremental` label: the mode decision already happened. -/
inductive Strategy
  | full
  | incremental
  deriving DecidableEq

inductive RunOutcome
  /-- `変更なし` early return (src/translate.py:405-408). -/
  | unchanged
  /-- A completed translation run. -/
  | done (strategy : Strategy) (usage : Usage)
  deriving DecidableEq

/-- The cost the run reports: `$0` on the unchanged path
(src/translate.py:406), the usage total otherwise. -/
def runCost : RunOutcome → ℚ
  | .unchanged => 0
  | .done _ u => u.total_cost

/-- Python truthiness of an optional string (`if old_content ...`,
`if new_entries:`): missing or empty is falsy. -/
def truthy : Option Str → Bool
  | none => false
  | some s => !s.isEmpty

/-- The commit point (src/translate.py:433-434): store the raw document
and its fingerprint together. -/
def commitState (fetched current_hash : Str) (st : FileState) : FileState :=
  { st with previous_content := some fetched, last_update := some current_hash }

/-- Shared tail of the three translation branches: on translation failure
the exception propagates with the files as they are; on success the save
function runs, then the raw document and fingerprint are persisted. -/
def afterTranslate (fetched current_hash : Str) (strat : Strategy)
    (save : Str → FileState → FileState) (res : Except Err (Str × Usage))
    (st : FileState) : FileState × Except Err RunOutcome :=
  match res with
  | .error e => (st, .error e)
  | .ok (text, usage) =>
    (commitState fetched current_hash (save text st), .ok (.done strat usage))

/-- `run` (src/translate.py:382-453).  `ts` is the run timestamp,
`fetched` the document returned by `fetch_changelog`, `oracle` the
translation capability. -/
def run (ts fetched : Str) (oracle : Oracle) (st : FileState) :
    FileState × Except Err RunOutcome :=
  let current_hash := calculate_hash fetched
  let limited_content := extract_recent_versions fetched max_versions_to_translate
  if st.last_update = some current_hash then
    (st, .ok .unchanged)
  else if truthy st.previous_content then
    let old_content := st.previous_content.getD []
    let p := should_do_full_translation st
    if p.1 then
      afterTranslate fetched current_hash .full (save_translation ts)
        (translate_changelog (translate_with_stream oracle limited_content false) 3).1 p.2
    else
      let new_entries := extract_new_entries old_content fetched
      if truthy new_entries then
        afterTranslate fetched current_hash .incremental (append_translation ts)
          (translate_changelog
            (translate_with_stream oracle (new_entries.getD []) true) 3).1 p.2
      else
        afterTranslate fetched current_hash .incremental (save_translation ts)
          (translate_changelog (translate_with_stream oracle limited_content false) 3).1 p.2
  else
    afterTranslate fetched current_hash .full (save_translation ts)
      (translate_changelog (translate_with_stream oracle limited_content false) 3).1 st

/-! ### Spec-side definitions

These follow the wording of the specification / claims, to be compared
with the embeddings above. -/

/-- Spec wording of the header scan, claim C2 as frozen: "the offset plus
one of the first line among the first 10 lines of the new document that
starts with `'# '` (0 if none)" — note: the raw line, no `strip`. -/
def headerLinesClaim (new_lines : List Str) : Nat :=
  match (new_lines.take 10).findIdx? (fun line => startswith line "# ".toList) with
  | some i => i + 1
  | none => 0

/-- The amended header scan: first of the first 10 lines whose *stripped
form* starts with `'# '`. -/
def headerLinesSpec (new_lines : List Str) : Nat :=
  match (new_lines.take 10).findIdx? (fun line => startswith (strip line) "# ".toList) with
  | some i => i + 1
  | none => 0

/-- Claim C2's extraction formula, literally: `deltaLines` from the line
counts, `none` when `deltaLines ≤ 0`, else the lines in
`[headerLines, min(deltaLines + headerLines + 50, totalNewLines))` joined
by newlines — with the claim's unstripped heading test. -/
def extractNewEntriesClaim (old_content new_content : Str) : Option Str :=
  let newLines := splitlines new_content
  let deltaLines : Int := (newLines.length : Int) - ((splitlines old_content).length : Int)
  if deltaLines ≤ 0 then none
  else
    let headerLines := headerLinesClaim newLines
    some (nlJoin ((newLines.take (min (deltaLines.toNat + headerLines + 50) newLines.length)).drop headerLines))

/-- The amended C2 formula: as `extractNewEntriesClaim` but detecting the
heading on the stripped line, as the source does. -/
def extractNewEntriesSpec (old_content new_content : Str) : Option Str :=
  let newLines := splitlines new_content
  let deltaLines : Int := (newLines.length : Int) - ((splitlines old_content).length : Int)
  if deltaLines ≤ 0 then none
  else
    let headerLines := headerLinesSpec newLines
    some (nlJoin ((newLines.take (min (deltaLines.toNat + headerLines + 50) newLines.length)).drop headerLines))

/-- The shortest initial segment of `lines` containing `n` lines satisfying `p`
(the whole list when fewer exist): "the document's lines up to and
including the line bearing the n-th such heading". -/
def takeThroughNth (p : Str → Bool) : Nat → List Str → List Str
  | _, [] => []
  | n, line :: rest =>
    if p line then
      if n ≤ 1 then [line] else line :: takeThroughNth p (n - 1) rest
    else
      line :: takeThroughNth p n rest

/-- Claim C9's version-heading predicate as frozen: "lines whose stripped
form starts with `'## '` and is not `'## Changelog'`" — an equality test
against `'## Changelog'`, where the source tests `startswith`. -/
def isVersionLineClaim (line : Str) : Bool :=
  startswith (strip line) "## ".toList && !(strip line == "## Changelog".toList)

/-- The output claim C9 predicts: lines through the `n`-th claim-heading,
then the two footer lines. -/
def recentVersionsClaim (content : Str) (max_versions : Nat) : Str :=
  nlJoin (takeThroughNth isVersionLineClaim max_versions (splitlines content) ++
    [versionsFooter1, versionsFooter2 max_versions])

/-- Timestamps whose generated header contains the terminator sequence
`'---\n\n'` only at its end: no occurrence starts strictly before the
terminator, i.e. none fits in `headerBase ts` extended by the first four
terminator characters.  Every timestamp the source generates (it contains
no newline and no `-`) satisfies this; the property is decidable and is
checked by `decide` in the witnesses. -/
def headerOk (ts : Str) : Prop :=
  strFindAux (headerBase ts ++ headerSep.dropLast) headerSep = none

instance (ts : Str) : Decidable (headerOk ts) := by
  unfold headerOk; infer_instance

/-- `pat` occurs somewhere in `s` (what Python `pat in s` / `find ≥ 0` test). -/
def occursIn (pat s : Str) : Prop := ∃ k, startswith (s.drop k) pat = true

/-- The spec's data-model invariant: the stored fingerprint is the digest
of the stored raw document. -/
def fingerprint_invariant (st : FileState) : Prop :=
  ∀ d, st.previous_content = some d → st.last_update = some (calculate_hash d)

/-! ### Lemmas about `startswith` and `strFindAux` -/

theorem startswith_take (s pat : Str) :
    startswith (s.take pat.length) pat = startswith s pat := by
  induction pat generalizing s with
  | nil => cases s <;> rfl
  | cons p ps ih =>
    cases s with
    | nil => rfl
    | cons c cs => simp [startswith, List.take, ih]

theorem startswith_append_left (x y pat : Str) (h : pat.length ≤ x.length) :
    startswith (x ++ y) pat = startswith x pat := by
  rw [← startswith_take (x ++ y) pat, List.take_append_of_le_length h,
    startswith_take]

theorem startswith_self (pat : Str) : startswith pat pat = true := by
  induction pat with
  | nil => rfl
  | cons p ps ih => simp [startswith, ih]

theorem startswith_append_self (pat B : Str) : startswith (pat ++ B) pat = true := by
  rw [startswith_append_left pat B pat le_rfl, startswith_self]

theorem strFindAux_of_startswith {s pat : Str} (h : startswith s pat = true) :
    strFindAux s pat = some 0 := by
  cases s <;> simp [strFindAux, h]

theorem strFindAux_eq_none_iff (s pat : Str) :
    strFindAux s pat = none ↔ ∀ k, startswith (s.drop k) pat = false := by
  induction s with
  | nil =>
    by_cases h : startswith [] pat = true
    · simp [strFindAux, h]
    · simp only [Bool.not_eq_true] at h
      simp [strFindAux, h, List.drop_nil]
  | cons c t ih =>
    by_cases h : startswith (c :: t) pat = true
    · simp only [strFindAux, h, if_true]
      constructor
      · intro hc; exact absurd hc (by simp)
      · intro hall; exact absurd (hall 0) (by simp [h])
    · simp only [Bool.not_eq_true] at h
      simp only [strFindAux, h, Bool.false_eq_true, if_false, Option.map_eq_none']
      rw [ih]
      constructor
      · intro hall k
        cases k with
        | zero => simpa using h
        | succ k => simpa using hall k
      · intro hall k
        simpa using hall (k + 1)

theorem strFindAux_eq_none_of_not_occurs {s pat : Str} (h : ¬ occursIn pat s) :
    strFindAux s pat = none := by
  rw [strFindAux_eq_none_iff]
  intro k
  by_contra hk
  exact h ⟨k, by simpa using hk⟩

/-- First-occurrence of `q ++ [d]` in `W ++ (q ++ [d]) ++ B` sits at
`W.length` when no occurrence fits inside `W ++ q`. -/
theorem strFindAux_append_at (W q B : Str) (d : Char)
    (h : strFindAux (W ++ q) (q ++ [d]) = none) :
    strFindAux (W ++ (q ++ [d]) ++ B) (q ++ [d]) = some W.length := by
  induction W with
  | nil =>
    simp only [List.nil_append]
    rw [strFindAux_of_startswith (startswith_append_self (q ++ [d]) B)]
    rfl
  | cons c W' ih =>
    have hnosw : startswith (c :: (W' ++ q)) (q ++ [d]) = false := by
      rw [strFindAux_eq_none_iff] at h
      simpa using h 0
    have htail : strFindAux (W' ++ q) (q ++ [d]) = none := by
      have h' := h
      simp only [List.cons_append] at h'
      simp only [strFindAux, hnosw, Bool.false_eq_true, if_false,
        Option.map_eq_none'] at h'
      exact h'
    have hlen : (q ++ [d]).length ≤ (c :: (W' ++ q)).length := by simp
    have hsw : startswith (c :: (W' ++ (q ++ [d]) ++ B)) (q ++ [d]) = false := by
      have heq : c :: (W' ++ (q ++ [d]) ++ B) = (c :: (W' ++ q)) ++ ([d] ++ B) := by
        simp
      rw [heq, startswith_append_left _ _ _ hlen, hnosw]
    calc strFindAux ((c :: W') ++ (q ++ [d]) ++ B) (q ++ [d])
        = strFindAux (c :: (W' ++ (q ++ [d]) ++ B)) (q ++ [d]) := by
          simp only [List.cons_append]
      _ = (strFindAux (W' ++ (q ++ [d]) ++ B) (q ++ [d])).map (· + 1) := by
          simp only [strFindAux, hsw, Bool.false_eq_true, if_false]
      _ = some (W'.length + 1) := by rw [ih htail]; rfl
      _ = some ((c :: W').length) := by simp

/-- On a well-formed artifact the first occurrence of the terminator is
exactly at the end of the generated header, whatever the body holds. -/
theorem strFindAux_mkHeader (ts B : Str) (h : headerOk ts) :
    strFindAux (mkHeader ts ++ B) headerSep = some (headerBase ts).length := by
  have hq : headerSep = "---\n".toList ++ ['\n'] := rfl
  have h' : strFindAux (headerBase ts ++ "---\n".toList) ("---\n".toList ++ ['\n']) = none := by
    have h2 := h
    unfold headerOk at h2
    rw [hq] at h2
    exact h2
  have hmain := strFindAux_append_at (headerBase ts) "---\n".toList B '\n' h'
  unfold mkHeader
  rw [hq]
  exact hmain

theorem length_mkHeader (ts : Str) : (mkHeader ts).length = (headerBase ts).length + 5 := by
  unfold mkHeader
  simp [headerSep]

/-- `append_translation` when the artifact file exists, before resolving
the `find`. -/
theorem append_translation_some (ts nc E : Str) (st : FileState)
    (h : st.output_file = some E) :
    append_translation ts nc st =
      { st with
        output_file := some (mkHeader ts ++
          (nc ++ "\n\n".toList ++ E.drop (strFind E headerSep + 5).toNat))
        note_ready := some (nc ++ "\n\n".toList ++
          E.drop (strFind E headerSep + 5).toNat) } := by
  unfold append_translation
  rw [h]

/-- `append_translation` on an artifact written by this system: it peels
exactly the generated header and keeps the whole stored body. -/
theorem append_translation_wellformed (ts0 ts F B : Str) (st : FileState)
    (h : headerOk ts0) (hout : st.output_file = some (mkHeader ts0 ++ B)) :
    append_translation ts F st =
      { st with
        output_file := some (mkHeader ts ++ (F ++ "\n\n".toList ++ B))
        note_ready := some (F ++ "\n\n".toList ++ B) } := by
  rw [append_translation_some ts F (mkHeader ts0 ++ B) st hout]
  have hfind : strFind (mkHeader ts0 ++ B) headerSep = ((headerBase ts0).length : Int) := by
    unfold strFind
    rw [strFindAux_mkHeader ts0 B h]
  rw [hfind]
  have hnat : ((((headerBase ts0).length : Int)) + 5).toNat = (mkHeader ts0).length := by
    rw [length_mkHeader]
    omega
  rw [hnat, List.drop_left]

/-! ### Lemmas about the retry loop -/

theorem attemptLoop_all_fail (f : Nat → Except Err (Str × Usage)) (es : Nat → Err) :
    ∀ (remaining a : Nat), (∀ j, j ≤ remaining → f (a + j) = .error (es (a + j))) →
      attemptLoop f a remaining =
        (.error (es (a + remaining)), (List.range remaining).map fun j => (a + j + 1) * 10) := by
  intro remaining
  induction remaining with
  | zero =>
    intro a h
    have h0 := h 0 (le_refl 0)
    simp only [Nat.add_zero] at h0
    simp [attemptLoop, h0]
  | succ rem ih =>
    intro a h
    have h0 := h 0 (Nat.zero_le _)
    simp only [Nat.add_zero] at h0
    have hrest : ∀ j, j ≤ rem → f (a + 1 + j) = .error (es (a + 1 + j)) := by
      intro j hj
      have := h (j + 1) (by omega)
      rw [show a + (j + 1) = a + 1 + j by omega] at this
      exact this
    simp only [attemptLoop, h0]
    rw [ih (a + 1) hrest]
    refine Prod.ext ?_ ?_
    · simp only []
      rw [show a + 1 + rem = a + (rem + 1) by omega]
    · simp only [List.range_succ_eq_map, List.map_cons, List.map_map]
      refine congrArg₂ _ (by omega) ?_
      refine List.map_congr_left fun j _ => ?_
      simp [Function.comp, Nat.succ_eq_add_one]
      omega

theorem attemptLoop_first_success (f : Nat → Except Err (Str × Usage)) (v : Str × Usage) :
    ∀ (k remaining a : Nat), k ≤ remaining → f (a + k) = .ok v →
      (∀ j, j < k → ∃ e, f (a + j) = .error e) →
      attemptLoop f a remaining =
        (.ok v, (List.range k).map fun j => (a + j + 1) * 10) := by
  intro k
  induction k with
  | zero =>
    intro remaining a _ hsucc _
    simp only [Nat.add_zero] at hsucc
    cases remaining with
    | zero => simp [attemptLoop, hsucc]
    | succ rem => simp [attemptLoop, hsucc]
  | succ k ih =>
    intro remaining a hk hsucc hfail
    obtain ⟨rem, rfl⟩ : ∃ rem, remaining = rem + 1 := ⟨remaining - 1, by omega⟩
    obtain ⟨e, he⟩ := hfail 0 (Nat.succ_pos k)
    simp only [Nat.add_zero] at he
    have hsucc' : f (a + 1 + k) = .ok v := by
      rw [show a + 1 + k = a + (k + 1) by omega]
      exact hsucc
    have hfail' : ∀ j, j < k → ∃ e, f (a + 1 + j) = .error e := by
      intro j hj
      obtain ⟨e', he'⟩ := hfail (j + 1) (by omega)
      exact ⟨e', by rw [show a + 1 + j = a + (j + 1) by omega]; exact he'⟩
    simp only [attemptLoop, he]
    rw [ih rem (a + 1) (by omega) hsucc' hfail']
    refine Prod.ext rfl ?_
    simp only [List.range_succ_eq_map, List.map_cons, List.map_map]
    refine congrArg₂ _ (by omega) ?_
    refine List.map_congr_left fun j _ => ?_
    simp [Function.comp, Nat.succ_eq_add_one]
    omega

theorem attemptLoop_all_fail_ex (f : Nat → Except Err (Str × Usage)) :
    ∀ (remaining a : Nat), (∀ j, j ≤ remaining → ∃ e, f (a + j) = .error e) →
      ∃ e, (attemptLoop f a remaining).1 = .error e := by
  intro remaining
  induction remaining with
  | zero =>
    intro a h
    obtain ⟨e, he⟩ := h 0 (le_refl 0)
    simp only [Nat.add_zero] at he
    exact ⟨e, by simp [attemptLoop, he]⟩
  | succ rem ih =>
    intro a h
    obtain ⟨e, he⟩ := h 0 (Nat.zero_le _)
    simp only [Nat.add_zero] at he
    obtain ⟨e', he'⟩ := ih (a + 1) fun j hj => by
      obtain ⟨e'', he''⟩ := h (j + 1) (by omega)
      exact ⟨e'', by rw [show a + 1 + j = a + (j + 1) by omega]; exact he''⟩
    exact ⟨e', by simp [attemptLoop, he, he']⟩

/-! ### Lemmas about `extract_recent_versions` -/

theorem ervLoop_eq_takeThroughNth (max_versions : Nat) :
    ∀ (lines : List Str) (vf : Nat), vf < max_versions →
      max_versions - vf ≤ lines.countP isVersionLine →
      ervLoop max_versions lines vf =
        takeThroughNth isVersionLine (max_versions - vf) lines ++
          [versionsFooter1, versionsFooter2 max_versions] := by
  intro lines
  induction lines with
  | nil =>
    intro vf hvf hcount
    simp [List.countP_nil] at hcount
    omega
  | cons line rest ih =>
    intro vf hvf hcount
    by_cases hv : isVersionLine line = true
    · by_cases hlast : vf + 1 ≥ max_versions
      · have h1 : max_versions - vf = 1 := by omega
        simp [ervLoop, takeThroughNth, hv, hlast, h1]
      · have h2 : ¬ (max_versions - vf ≤ 1) := by omega
        have hcount' : max_versions - (vf + 1) ≤ rest.countP isVersionLine := by
          rw [List.countP_cons, hv] at hcount
          simp at hcount
          omega
        simp only [ervLoop, takeThroughNth, hv, if_true, hlast, if_false, h2]
        rw [ih (vf + 1) (by omega) hcount']
        rw [show max_versions - vf - 1 = max_versions - (vf + 1) by omega]
        simp
    · simp only [Bool.not_eq_true] at hv
      have hcount' : max_versions - vf ≤ rest.countP isVersionLine := by
        rw [List.countP_cons, hv] at hcount
        simp at hcount
        omega
      simp only [ervLoop, takeThroughNth, hv, Bool.false_eq_true, if_false]
      rw [ih vf hvf hcount']
      simp

theorem countP_takeThroughNth (p : Str → Bool) :
    ∀ (n : Nat) (lines : List Str), 1 ≤ n → n ≤ lines.countP p →
      (takeThroughNth p n lines).countP p = n := by
  intro n lines
  induction lines generalizing n with
  | nil =>
    intro h1 h2
    simp [List.countP_nil] at h2
    omega
  | cons line rest ih =>
    intro h1 h2
    by_cases hv : p line = true
    · by_cases hn : n ≤ 1
      · have : n = 1 := by omega
        subst this
        simp [takeThroughNth, hv, List.countP_cons]
      · have h2' : n - 1 ≤ rest.countP p := by
          rw [List.countP_cons, hv] at h2
          simp at h2
          omega
        simp only [takeThroughNth, hv, if_true, hn, if_false]
        rw [List.countP_cons, hv, ih (n - 1) (by omega) h2']
        simp
        omega
    · simp only [Bool.not_eq_true] at hv
      have h2' : n ≤ rest.countP p := by
        rw [List.countP_cons, hv] at h2
        simp at h2
        omega
      simp only [takeThroughNth, hv, Bool.false_eq_true, if_false]
      rw [List.countP_cons, hv, ih n h1 h2']
      simp

theorem dropWhile_append_single (p : Char → Bool) (a : Str) (c : Char)
    (hc : p c = false) :
    List.dropWhile p (a ++ [c]) = List.dropWhile p a ++ [c] := by
  induction a with
  | nil => simp [List.dropWhile, hc]
  | cons x a' ih =>
    by_cases hx : p x = true
    · simp [List.dropWhile_cons, hx, ih]
    · simp only [Bool.not_eq_true] at hx
      simp [List.dropWhile_cons, hx]

/-- Removing trailing whitespace from a list ending in a non-space
character changes nothing. -/
theorem trail_strip_of_last (l : Str) (c : Char) (hc : isPySpace c = false) :
    ((l ++ [c]).reverse.dropWhile isPySpace).reverse = l ++ [c] := by
  rw [List.reverse_append]
  simp [List.dropWhile, hc]

theorem isVersionLine_footer1 : isVersionLine versionsFooter1 = false := by decide

theorem isVersionLine_footer2 (N : Nat) : isVersionLine (versionsFooter2 N) = false := by
  have hshape : versionsFooter2 N =
      '\n' :: '*' :: (("最新".toList ++ (Nat.repr N).toList ++ "バージョンのみ表示".toList) ++ ['*']) := by
    unfold versionsFooter2
    simp
  have hstrip : strip (versionsFooter2 N) =
      '*' :: (("最新".toList ++ (Nat.repr N).toList ++ "バージョンのみ表示".toList) ++ ['*']) := by
    rw [hshape]
    unfold strip
    rw [show List.dropWhile isPySpace
        ('\n' :: '*' :: (("最新".toList ++ (Nat.repr N).toList ++ "バージョンのみ表示".toList) ++ ['*'])) =
        '*' :: (("最新".toList ++ (Nat.repr N).toList ++ "バージョンのみ表示".toList) ++ ['*'])
      from by simp [List.dropWhile_cons, isPySpace]]
    rw [show ('*' :: (("最新".toList ++ (Nat.repr N).toList ++ "バージョンのみ表示".toList) ++ ['*'])) =
        ('*' :: ("最新".toList ++ (Nat.repr N).toList ++ "バージョンのみ表示".toList)) ++ ['*']
      from by simp]
    rw [trail_strip_of_last _ '*' (by decide)]
  unfold isVersionLine
  rw [hstrip]
  rfl

/-! ### Lemmas about the header scan of `extract_new_entries` -/

theorem fhlLoop_eq_findIdx (ls : List Str) :
    ∀ i, fhlLoop ls i =
      match List.findIdx? (fun line => startswith (strip line) "# ".toList) ls i with
      | some j => j + 1
      | none => 0 := by
  induction ls with
  | nil => intro i; simp [fhlLoop, List.findIdx?_nil]
  | cons l rest ih =>
    intro i
    show (if startswith (strip l) "# ".toList = true then i + 1 else fhlLoop rest (i + 1)) = _
    simp only [List.findIdx?_cons]
    by_cases hp : startswith (strip l) "# ".toList = true
    · rw [if_pos hp, if_pos hp]
    · rw [if_neg hp, if_neg hp, ih (i + 1)]

theorem findHeaderLines_eq_spec (new_lines : List Str) :
    findHeaderLines new_lines = headerLinesSpec new_lines := by
  unfold findHeaderLines headerLinesSpec
  rw [fhlLoop_eq_findIdx]

/-! ### Lemmas about `run` -/

theorem save_translation_count (ts text : Str) (s : FileState) :
    (save_translation ts text s).translation_count = s.translation_count := rfl

theorem append_translation_count (ts text : Str) (s : FileState) :
    (append_translation ts text s).translation_count = s.translation_count := by
  rcases s with ⟨a, b, c, o, n⟩
  cases o <;> rfl

theorem sdf_preserves_fields (st : FileState) :
    ((should_do_full_translation st).2.last_update = st.last_update ∧
     (should_do_full_translation st).2.previous_content = st.previous_content ∧
     (should_do_full_translation st).2.output_file = st.output_file ∧
     (should_do_full_translation st).2.note_ready = st.note_ready) := by
  unfold should_do_full_translation
  dsimp only
  split <;> simp

theorem sdf_spec (st : FileState) :
    (st.translation_count.getD 0 + 1 ≥ full_translation_interval →
      should_do_full_translation st = (true, { st with translation_count := some 0 })) ∧
    (st.translation_count.getD 0 + 1 < full_translation_interval →
      should_do_full_translation st =
        (false, { st with translation_count := some (st.translation_count.getD 0 + 1) })) := by
  unfold should_do_full_translation
  constructor
  · intro h; rw [if_pos h]
  · intro h; rw [if_neg (by omega)]

theorem afterTranslate_error (fetched ch : Str) (strat : Strategy)
    (save : Str → FileState → FileState) (e : Err) (st1 : FileState) :
    afterTranslate fetched ch strat save (.error e) st1 = (st1, .error e) := rfl

theorem afterTranslate_ok (fetched ch : Str) (strat : Strategy)
    (save : Str → FileState → FileState) (text : Str) (usage : Usage) (st1 : FileState) :
    afterTranslate fetched ch strat save (.ok (text, usage)) st1 =
      (commitState fetched ch (save text st1), .ok (.done strat usage)) := rfl

/-- Counter and strategy-label facts about `afterTranslate`, for a save
function that does not touch the counter file. -/
theorem afterTranslate_counter_strat (fetched ch : Str) (strat : Strategy)
    (save : Str → FileState → FileState)
    (hs : ∀ text s, (save text s).translation_count = s.translation_count)
    (res : Except Err (Str × Usage)) (st1 : FileState) :
    (afterTranslate fetched ch strat save res st1).1.translation_count = st1.translation_count ∧
    (∀ strat' u, (afterTranslate fetched ch strat save res st1).2 = .ok (.done strat' u) →
      strat' = strat) := by
  cases res with
  | error e =>
    refine ⟨rfl, ?_⟩
    intro s u h
    simp [afterTranslate] at h
  | ok p =>
    obtain ⟨text, usage⟩ := p
    refine ⟨?_, ?_⟩
    · show (commitState fetched ch (save text st1)).translation_count = _
      exact hs text st1
    · intro s u h
      rw [afterTranslate_ok] at h
      simp at h
      exact h.1.symm

/-- The valuation of `run` once past the fingerprint comparison: every
branch is an `afterTranslate` on a state whose non-counter files are
those of `st`. -/
theorem run_cases (ts fetched : Str) (oracle : Oracle) (st : FileState)
    (hch : ¬ st.last_update = some (calculate_hash fetched)) :
    ∃ (strat : Strategy) (save : Str → FileState → FileState)
      (mode : Bool) (content : Str) (st1 : FileState),
      run ts fetched oracle st =
        afterTranslate fetched (calculate_hash fetched) strat save
          (translate_changelog (translate_with_stream oracle content mode) 3).1 st1 ∧
      (st1 = st ∨ st1 = (should_do_full_translation st).2) ∧
      (∀ text s, (save text s).translation_count = s.translation_count) := by
  unfold run
  rw [if_neg hch]
  by_cases hprev : truthy st.previous_content = true
  · rw [if_pos hprev]
    by_cases hfull : (should_do_full_translation st).1 = true
    · rw [if_pos hfull]
      exact ⟨.full, save_translation ts, false,
        extract_recent_versions fetched max_versions_to_translate,
        (should_do_full_translation st).2, rfl, Or.inr rfl, save_translation_count ts⟩
    · rw [if_neg hfull]
      by_cases hne : truthy (extract_new_entries (st.previous_content.getD []) fetched) = true
      · rw [if_pos hne]
        exact ⟨.incremental, append_translation ts, true,
          (extract_new_entries (st.previous_content.getD []) fetched).getD [],
          (should_do_full_translation st).2, rfl, Or.inr rfl, append_translation_count ts⟩
      · rw [if_neg hne]
        exact ⟨.incremental, save_translation ts, false,
          extract_recent_versions fetched max_versions_to_translate,
          (should_do_full_translation st).2, rfl, Or.inr rfl, save_translation_count ts⟩
  · rw [if_neg hprev]
    exact ⟨.full, save_translation ts, false,
      extract_recent_versions fetched max_versions_to_translate, st, rfl, Or.inl rfl,
      save_translation_count ts⟩

/-! ## The claims -/

/-- Claim C2, counterexample: the claim reads the heading test as
`line.startswith('# ')` on the raw line, but the source tests the
*stripped* line (src/translate.py:153).  For `old = "a"` and
`new = " # H\nx\ny"` (leading space before `#`), the code takes
`headerLines = 1` and returns `"x\ny"`, while the claim's formula takes
`headerLines = 0` and predicts `" # H\nx\ny"`. -/
theorem c2_counterexample :
    extract_new_entries "a".toList " # H\nx\ny".toList = some "x\ny".toList ∧
    extractNewEntriesClaim "a".toList " # H\nx\ny".toList = some " # H\nx\ny".toList ∧
    extract_new_entries "a".toList " # H\nx\ny".toList ≠
      extractNewEntriesClaim "a".toList " # H\nx\ny".toList := by
  refine ⟨by decide, by decide, by decide⟩

/-- Claim C2 as amended: `extractNewEntries` computes
`deltaLines = count(newLines) - count(oldLines)`; if `deltaLines ≤ 0` it
returns no fragment; otherwise `headerLines` is the offset plus one of
the first line among the first 10 lines of the new document *whose
stripped form* starts with `'# '` (0 if none), and it returns the new
document's lines in `[headerLines, min(deltaLines + headerLines + 50,
totalNewLines))` joined by newlines. -/
theorem c2_extract_matches_spec (old_content new_content : Str) :
    extract_new_entries old_content new_content =
      extractNewEntriesSpec old_content new_content := by
  unfold extract_new_entries extractNewEntriesSpec
  dsimp only
  by_cases hd : ((splitlines new_content).length : Int) -
      ((splitlines old_content).length : Int) ≤ 0
  · rw [if_pos hd, if_pos hd]
  · rw [if_neg hd, if_neg hd, findHeaderLines_eq_spec, List.drop_take]

/-- Claim C3, counterexample: with `old` of 100 lines and `new` of 120
lines whose first heading yields `headerLines = 6`, the claim's own
formula gives `min(20 + 6 + 50, 120) = 76`, not 96: the extraction is
lines `[6, 76)`, so the claimed `[6, 96)` output is wrong. -/
theorem c3_counterexample :
    extract_new_entries (nlJoin (List.replicate 100 ['x']))
        (nlJoin (List.replicate 5 ['a'] ++ ["# H".toList] ++
          List.replicate 70 ['b'] ++ List.replicate 44 ['c'])) ≠
      some (nlJoin (((splitlines (nlJoin (List.replicate 5 ['a'] ++ ["# H".toList] ++
        List.replicate 70 ['b'] ++ List.replicate 44 ['c']))).take 96).drop 6)) := by
  decide

/-- Claim C3 as amended: on the 100-line/120-line fixture with
`headerLines = 6`, `extractNewEntries` returns exactly lines
`[6, min(20 + 6 + 50, 120)) = [6, 76)` of the new document. -/
theorem c3_fixture :
    findHeaderLines (splitlines (nlJoin (List.replicate 5 ['a'] ++ ["# H".toList] ++
        List.replicate 70 ['b'] ++ List.replicate 44 ['c']))) = 6 ∧
    min (20 + 6 + 50) 120 = 76 ∧
    extract_new_entries (nlJoin (List.replicate 100 ['x']))
        (nlJoin (List.replicate 5 ['a'] ++ ["# H".toList] ++
          List.replicate 70 ['b'] ++ List.replicate 44 ['c'])) =
      some (nlJoin (((splitlines (nlJoin (List.replicate 5 ['a'] ++ ["# H".toList] ++
        List.replicate 70 ['b'] ++ List.replicate 44 ['c']))).take 76).drop 6)) := by
  refine ⟨by decide, by decide, by decide⟩

/-- Claim C5: incremental append is ordered most-recent-first.  Starting
from an artifact `mkHeader ts0 ++ B0` (any artifact this system writes;
`headerOk` states the generated headers carry the terminator only at the
end, which holds for every real timestamp and is checked by `decide` in
the witness), appending `F1` then `F2` yields body
`F2 ++ "\n\n" ++ F1 ++ "\n\n" ++ B0`, and the previously accumulated body
survives unchanged as a suffix. -/
theorem c5_append_ordering (ts0 ts1 ts2 F1 F2 B0 : Str) (st : FileState)
    (h0 : headerOk ts0) (h1 : headerOk ts1)
    (hout : st.output_file = some (mkHeader ts0 ++ B0)) :
    (append_translation ts1 F1 st).output_file =
      some (mkHeader ts1 ++ (F1 ++ "\n\n".toList ++ B0)) ∧
    (append_translation ts2 F2 (append_translation ts1 F1 st)).output_file =
      some (mkHeader ts2 ++ (F2 ++ "\n\n".toList ++ (F1 ++ "\n\n".toList ++ B0))) ∧
    (append_translation ts2 F2 (append_translation ts1 F1 st)).note_ready =
      some (F2 ++ "\n\n".toList ++ (F1 ++ "\n\n".toList ++ B0)) ∧
    (F1 ++ "\n\n".toList ++ B0) <:+ (F2 ++ "\n\n".toList ++ (F1 ++ "\n\n".toList ++ B0)) := by
  have e1 := append_translation_wellformed ts0 ts1 F1 B0 st h0 hout
  have hout1 : (append_translation ts1 F1 st).output_file =
      some (mkHeader ts1 ++ (F1 ++ "\n\n".toList ++ B0)) := by rw [e1]
  have e2 := append_translation_wellformed ts1 ts2 F2 (F1 ++ "\n\n".toList ++ B0)
    (append_translation ts1 F1 st) h1 hout1
  refine ⟨hout1, ?_, ?_, List.suffix_append _ _⟩
  · rw [e2]
  · rw [e2]

theorem c5_append_ordering_witness :
    (append_translation "2025年10月12日 09:30".toList "F2訳".toList
        (append_translation "2025年10月12日 09:00".toList "F1訳".toList
          ⟨none, none, none, some (mkHeader "2025年10月11日 08:00".toList ++ "B0訳".toList),
           none⟩)).note_ready =
      some ("F2訳".toList ++ "\n\n".toList ++ ("F1訳".toList ++ "\n\n".toList ++ "B0訳".toList)) :=
  (c5_append_ordering "2025年10月11日 08:00".toList "2025年10月12日 09:00".toList
    "2025年10月12日 09:30".toList "F1訳".toList "F2訳".toList "B0訳".toList
    ⟨none, none, none, some (mkHeader "2025年10月11日 08:00".toList ++ "B0訳".toList), none⟩
    (by decide) (by decide) rfl).2.2.1

/-- Claim C6: `translate_changelog` attempts the call up to `max_retries`
times with backoff `(attemptIndex) * 10` time units between consecutive
attempts (10, 20, ...), returns the first successful attempt's result,
and propagates the terminal error iff every attempt raises. -/
theorem c6_retry_backoff (f : Nat → Except Err (Str × Usage)) (max_retries : Nat)
    (es : Nat → Err) (hmr : 1 ≤ max_retries) :
    ((∀ i, i < max_retries → f i = .error (es i)) →
      translate_changelog f max_retries =
        (.error (es (max_retries - 1)),
         (List.range (max_retries - 1)).map fun j => (j + 1) * 10)) ∧
    (∀ k v, k < max_retries → f k = .ok v → (∀ i, i < k → ∃ e, f i = .error e) →
      translate_changelog f max_retries =
        (.ok v, (List.range k).map fun j => (j + 1) * 10)) := by
  constructor
  · intro hall
    unfold translate_changelog
    have h := attemptLoop_all_fail f es (max_retries - 1) 0
      (fun j hj => by simpa using hall j (by omega))
    rw [h]
    simp
  · intro k v hk hok hfail
    unfold translate_changelog
    have h := attemptLoop_first_success f v k (max_retries - 1) 0 (by omega)
      (by simpa using hok) (fun j hj => by simpa using hfail j (by omega))
    rw [h]
    simp

theorem c6_retry_backoff_witness :
    translate_changelog (fun _ => Except.error "boom".toList) 3 =
      (Except.error "boom".toList, [10, 20]) ∧
    translate_changelog
        (fun i => if i = 0 then Except.error "boom".toList
          else Except.ok ("訳".toList, mkUsage 1 2)) 3 =
      (Except.ok ("訳".toList, mkUsage 1 2), [10]) :=
  ⟨(c6_retry_backoff (fun _ => Except.error "boom".toList) 3
      (fun _ => "boom".toList) (by decide)).1 (fun _ _ => rfl),
   (c6_retry_backoff
      (fun i => if i = 0 then Except.error "boom".toList
        else Except.ok ("訳".toList, mkUsage 1 2)) 3
      (fun _ => "boom".toList) (by decide)).2 1 ("訳".toList, mkUsage 1 2)
      (by decide) rfl (fun i hi => ⟨"boom".toList, by interval_cases i; rfl⟩)⟩

/-- Claim C9, counterexample: the claim's heading predicate excludes only
the exact line `'## Changelog'`, but the source excludes every line whose
stripped form *starts with* `'## Changelog'` (src/translate.py:97).  On a
document headed by `'## Changelog extra'` followed by 50 version
headings, with the cap at 50, the code keeps all 51 lines while the
claim predicts stopping at the 50th. -/
theorem c9_counterexample :
    extract_recent_versions
        (nlJoin ("## Changelog extra".toList ::
          (List.range 50).map (fun i => "## v".toList ++ (Nat.repr i).toList))) 50 ≠
      recentVersionsClaim
        (nlJoin ("## Changelog extra".toList ::
          (List.range 50).map (fun i => "## v".toList ++ (Nat.repr i).toList))) 50 := by
  decide

/-- Claim C9 as amended: for every document holding at least `N ≥ 1`
version headings (lines whose stripped form starts with `'## '` and does
not start with `'## Changelog'`), `extract_recent_versions` returns the
document's lines up to and including the `N`-th such heading followed
only by the two footer lines, and the output contains exactly `N`
version headings. -/
theorem c9_recent_versions (content : Str) (N : Nat) (hN : 1 ≤ N)
    (hcount : N ≤ (splitlines content).countP isVersionLine) :
    extract_recent_versions content N =
      nlJoin (takeThroughNth isVersionLine N (splitlines content) ++
        [versionsFooter1, versionsFooter2 N]) ∧
    (takeThroughNth isVersionLine N (splitlines content) ++
        [versionsFooter1, versionsFooter2 N]).countP isVersionLine = N := by
  constructor
  · unfold extract_recent_versions
    rw [ervLoop_eq_takeThroughNth N (splitlines content) 0 (by omega)
      (by simpa using hcount), Nat.sub_zero]
  · rw [List.countP_append,
      countP_takeThroughNth isVersionLine N (splitlines content) hN hcount]
    simp [List.countP_cons, isVersionLine_footer1, isVersionLine_footer2]

theorem c9_recent_versions_witness :
    extract_recent_versions "# T\n## 1.0\nbody\n## 0.9\nolder".toList 1 =
      nlJoin (takeThroughNth isVersionLine 1
        (splitlines "# T\n## 1.0\nbody\n## 0.9\nolder".toList) ++
        [versionsFooter1, versionsFooter2 1]) :=
  (c9_recent_versions "# T\n## 1.0\nbody\n## 0.9\nolder".toList 1
    (by decide) (by decide)).1

/-- Claim C10: when the stored artifact exists but holds no `'---\n\n'`,
`append_translation` still succeeds: `find` gives `-1`, the split point
is character offset 4, the first 4 characters are dropped, and the new
body is `fragment ++ "\n\n" ++` the artifact from offset 4 on, under a
fresh header; the FULL-save fallback fires only when the artifact file
is missing. -/
theorem c10_append_without_terminator (ts F ex : Str) (st : FileState)
    (hout : st.output_file = some ex) (hno : ¬ occursIn headerSep ex) :
    append_translation ts F st =
      { st with
        output_file := some (mkHeader ts ++ (F ++ "\n\n".toList ++ ex.drop 4))
        note_ready := some (F ++ "\n\n".toList ++ ex.drop 4) } ∧
    append_translation ts F { st with output_file := none } =
      save_translation ts F { st with output_file := none } := by
  constructor
  · rw [append_translation_some ts F ex st hout]
    have hfind : strFind ex headerSep = -1 := by
      unfold strFind
      rw [strFindAux_eq_none_of_not_occurs hno]
    rw [hfind]
    norm_num
    rfl
  · rfl

theorem c10_append_without_terminator_witness :
    append_translation "2025年10月12日 09:00".toList "新訳".toList
        ⟨none, none, none, some "abcdefgh".toList, none⟩ =
      ⟨none, none, none,
       some (mkHeader "2025年10月12日 09:00".toList ++
         ("新訳".toList ++ "\n\n".toList ++ "efgh".toList)),
       some ("新訳".toList ++ "\n\n".toList ++ "efgh".toList)⟩ := by
  have h := (c10_append_without_terminator "2025年10月12日 09:00".toList "新訳".toList
    "abcdefgh".toList ⟨none, none, none, some "abcdefgh".toList, none⟩ rfl
    (by intro hocc; obtain ⟨k, hk⟩ := hocc; revert hk
        rcases le_or_lt k 8 with h | h
        · interval_cases k <;> decide
        · have hlen : ("abcdefgh".toList).length ≤ k := by
            have h8 : ("abcdefgh".toList).length = 8 := rfl
            omega
          rw [List.drop_eq_nil_of_le hlen]; decide)).1
  exact h

/-- Claim C7: when the fetched document's fingerprint equals the stored
one, the run ends `unchanged` with every persisted file untouched and a
reported cost of 0; the conclusion holds for every translation oracle, so
the capability is never consulted. -/
theorem c7_unchanged_no_mutation (ts fetched : Str) (oracle : Oracle) (st : FileState)
    (h : st.last_update = some (calculate_hash fetched)) :
    run ts fetched oracle st = (st, .ok .unchanged) ∧
    (∀ o, (run ts fetched oracle st).2 = .ok o → runCost o = 0) := by
  have h1 : run ts fetched oracle st = (st, .ok .unchanged) := by
    unfold run
    rw [if_pos h]
  refine ⟨h1, ?_⟩
  intro o ho
  rw [h1] at ho
  have h2 : RunOutcome.unchanged = o := by simpa using ho
  rw [← h2]
  rfl

theorem c7_unchanged_no_mutation_witness :
    run "t".toList "# C\nv1".toList (fun _ _ _ => Except.ok ("訳".toList, 1, 2))
        ⟨some (calculate_hash "# C\nv1".toList), some "# C\nv1".toList, some 3, none, none⟩ =
      (⟨some (calculate_hash "# C\nv1".toList), some "# C\nv1".toList, some 3, none, none⟩,
       Except.ok .unchanged) :=
  (c7_unchanged_no_mutation "t".toList "# C\nv1".toList
    (fun _ _ _ => Except.ok ("訳".toList, 1, 2))
    ⟨some (calculate_hash "# C\nv1".toList), some "# C\nv1".toList, some 3, none, none⟩
    rfl).1

/-- Claim C8: the stored fingerprint always equals the digest of the
stored raw document: the invariant is preserved by every successful run,
and a run that translated something stores the fetched document and its
digest together at the commit point. -/
theorem c8_fingerprint_invariant (ts fetched : Str) (oracle : Oracle) (st : FileState)
    (hinv : fingerprint_invariant st)
    (hsucc : ∃ o, (run ts fetched oracle st).2 = .ok o) :
    fingerprint_invariant (run ts fetched oracle st).1 ∧
    (∀ strat u, (run ts fetched oracle st).2 = .ok (.done strat u) →
      (run ts fetched oracle st).1.previous_content = some fetched ∧
      (run ts fetched oracle st).1.last_update = some (calculate_hash fetched)) := by
  by_cases hch : st.last_update = some (calculate_hash fetched)
  · have h1 : run ts fetched oracle st = (st, .ok .unchanged) := by
      unfold run
      rw [if_pos hch]
    rw [h1]
    refine ⟨hinv, ?_⟩
    intro strat u hdone
    simp at hdone
  · obtain ⟨strat, save, mode, content, st1, heq, _, _⟩ := run_cases ts fetched oracle st hch
    rw [heq] at hsucc ⊢
    cases hres : (translate_changelog (translate_with_stream oracle content mode) 3).1 with
    | error e =>
      rw [hres] at hsucc
      obtain ⟨o, ho⟩ := hsucc
      rw [afterTranslate_error] at ho
      simp at ho
    | ok p =>
      obtain ⟨text, usage⟩ := p
      rw [afterTranslate_ok]
      constructor
      · intro d hd
        have hd' : fetched = d := by simpa [commitState] using hd
        subst hd'
        rfl
      · intro strat' u' _
        exact ⟨rfl, rfl⟩

theorem c8_fingerprint_invariant_witness :
    (run "t".toList "# C\nv1".toList (fun _ _ _ => Except.ok ("訳".toList, 5, 7))
        ⟨none, none, none, none, none⟩).1.previous_content = some "# C\nv1".toList ∧
    (run "t".toList "# C\nv1".toList (fun _ _ _ => Except.ok ("訳".toList, 5, 7))
        ⟨none, none, none, none, none⟩).1.last_update =
      some (calculate_hash "# C\nv1".toList) :=
  (c8_fingerprint_invariant "t".toList "# C\nv1".toList
    (fun _ _ _ => Except.ok ("訳".toList, 5, 7)) ⟨none, none, none, none, none⟩
    (fun d hd => by simp at hd) ⟨.done .full (mkUsage 5 7), rfl⟩).2 .full (mkUsage 5 7) rfl

/-- Claim C4: when every translation attempt raises, the run ends in the
fatal error state (the exception propagates out of `run`), and none of
the persisted files — fingerprint, raw-document snapshot, or either
translated artifact — is updated. -/
theorem c4_translation_failure_preserves_state (ts fetched : Str) (oracle : Oracle)
    (st : FileState) (hch : ¬ st.last_update = some (calculate_hash fetched))
    (hfail : ∀ content mode i, i < 3 → ∃ e, oracle content mode i = .error e) :
    (∃ e, (run ts fetched oracle st).2 = .error e) ∧
    (run ts fetched oracle st).1.last_update = st.last_update ∧
    (run ts fetched oracle st).1.previous_content = st.previous_content ∧
    (run ts fetched oracle st).1.output_file = st.output_file ∧
    (run ts fetched oracle st).1.note_ready = st.note_ready := by
  obtain ⟨strat, save, mode, content, st1, heq, hst1, _⟩ := run_cases ts fetched oracle st hch
  have hfail' : ∀ j, j ≤ 2 → ∃ e, translate_with_stream oracle content mode j = .error e := by
    intro j hj
    obtain ⟨e, he⟩ := hfail content mode j (by omega)
    exact ⟨e, by unfold translate_with_stream; rw [he]; rfl⟩
  obtain ⟨e, he⟩ := attemptLoop_all_fail_ex (translate_with_stream oracle content mode) 2 0
    (fun j hj => by simpa using hfail' j hj)
  have hres : (translate_changelog (translate_with_stream oracle content mode) 3).1 =
      .error e := he
  rw [heq, hres, afterTranslate_error]
  have hfields : st1.last_update = st.last_update ∧ st1.previous_content = st.previous_content ∧
      st1.output_file = st.output_file ∧ st1.note_ready = st.note_ready := by
    rcases hst1 with h | h
    · rw [h]; exact ⟨rfl, rfl, rfl, rfl⟩
    · rw [h]
      exact ⟨(sdf_preserves_fields st).1, (sdf_preserves_fields st).2.1,
        (sdf_preserves_fields st).2.2.1, (sdf_preserves_fields st).2.2.2⟩
  exact ⟨⟨e, rfl⟩, hfields.1, hfields.2.1, hfields.2.2.1, hfields.2.2.2⟩

theorem c4_translation_failure_preserves_state_witness :
    (∃ e, (run "t".toList "# C\nv1".toList (fun _ _ _ => Except.error "boom".toList)
        ⟨none, some "# old\nv0".toList, some 2, some "A".toList, some "B".toList⟩).2 =
      .error e) ∧
    (run "t".toList "# C\nv1".toList (fun _ _ _ => Except.error "boom".toList)
        ⟨none, some "# old\nv0".toList, some 2, some "A".toList,
         some "B".toList⟩).1.last_update = none ∧
    (run "t".toList "# C\nv1".toList (fun _ _ _ => Except.error "boom".toList)
        ⟨none, some "# old\nv0".toList, some 2, some "A".toList,
         some "B".toList⟩).1.previous_content = some "# old\nv0".toList ∧
    (run "t".toList "# C\nv1".toList (fun _ _ _ => Except.error "boom".toList)
        ⟨none, some "# old\nv0".toList, some 2, some "A".toList,
         some "B".toList⟩).1.output_file = some "A".toList ∧
    (run "t".toList "# C\nv1".toList (fun _ _ _ => Except.error "boom".toList)
        ⟨none, some "# old\nv0".toList, some 2, some "A".toList,
         some "B".toList⟩).1.note_ready = some "B".toList :=
  c4_translation_failure_preserves_state "t".toList "# C\nv1".toList
    (fun _ _ _ => Except.error "boom".toList)
    ⟨none, some "# old\nv0".toList, some 2, some "A".toList, some "B".toList⟩
    (by simp) (fun _ _ _ _ => ⟨"boom".toList, rfl⟩)

/-- Claim C1, counterexample: on a first run (no previous raw document)
the source never calls `should_do_full_translation` — the `and` at
src/translate.py:416 short-circuits — so the cycle counter file is not
incremented: starting from an absent counter (counter 0), after a
completed change-detected first run the counter is still absent, not 1
as the claim states. -/
theorem c1_counterexample :
    (⟨none, none, none, none, none⟩ : FileState).previous_content = none ∧
    (run "t".toList "# C\nv1".toList (fun _ _ _ => Except.ok ("訳".toList, 1, 2))
        ⟨none, none, none, none, none⟩).2 = .ok (.done .full (mkUsage 1 2)) ∧
    (run "t".toList "# C\nv1".toList (fun _ _ _ => Except.ok ("訳".toList, 1, 2))
        ⟨none, none, none, none, none⟩).1.translation_count ≠ some 1 := by
  refine ⟨rfl, rfl, by decide⟩

/-- Claim C1 as amended: on a change-detected run *with* a previous raw
document, the policy first increments the persisted cycle counter; if
the incremented counter reaches `full_translation_interval` the strategy
is FULL and the counter is reset to 0, else the strategy is INCREMENTAL.
With no previous raw document the strategy is FULL and the counter is
not touched at all. -/
theorem c1_policy (ts fetched : Str) (oracle : Oracle) (st : FileState)
    (hch : ¬ st.last_update = some (calculate_hash fetched)) :
    (truthy st.previous_content = false →
      (run ts fetched oracle st).1.translation_count = st.translation_count ∧
      ∀ strat u, (run ts fetched oracle st).2 = .ok (.done strat u) → strat = .full) ∧
    (truthy st.previous_content = true →
      st.translation_count.getD 0 + 1 ≥ full_translation_interval →
      (run ts fetched oracle st).1.translation_count = some 0 ∧
      ∀ strat u, (run ts fetched oracle st).2 = .ok (.done strat u) → strat = .full) ∧
    (truthy st.previous_content = true →
      st.translation_count.getD 0 + 1 < full_translation_interval →
      (run ts fetched oracle st).1.translation_count =
        some (st.translation_count.getD 0 + 1) ∧
      ∀ strat u, (run ts fetched oracle st).2 = .ok (.done strat u) → strat = .incremental) := by
  refine ⟨?_, ?_, ?_⟩
  · intro hprev
    unfold run
    rw [if_neg hch, if_neg (by rw [hprev]; exact Bool.false_ne_true)]
    have h := afterTranslate_counter_strat fetched (calculate_hash fetched) .full
      (save_translation ts) (save_translation_count ts)
      (translate_changelog (translate_with_stream oracle
        (extract_recent_versions fetched max_versions_to_translate) false) 3).1 st
    exact ⟨h.1, h.2⟩
  · intro hprev hge
    unfold run
    rw [if_neg hch, if_pos hprev]
    rw [(sdf_spec st).1 hge]
    dsimp only
    rw [if_pos rfl]
    have h := afterTranslate_counter_strat fetched (calculate_hash fetched) .full
      (save_translation ts) (save_translation_count ts)
      (translate_changelog (translate_with_stream oracle
        (extract_recent_versions fetched max_versions_to_translate) false) 3).1
      { st with translation_count := some 0 }
    exact ⟨h.1, h.2⟩
  · intro hprev hlt
    unfold run
    rw [if_neg hch, if_pos hprev]
    rw [(sdf_spec st).2 hlt]
    dsimp only
    rw [if_neg (by exact Bool.false_ne_true)]
    by_cases hne : truthy (extract_new_entries (st.previous_content.getD []) fetched) = true
    · rw [if_pos hne]
      have h := afterTranslate_counter_strat fetched (calculate_hash fetched) .incremental
        (append_translation ts) (append_translation_count ts)
        (translate_changelog (translate_with_stream oracle
          ((extract_new_entries (st.previous_content.getD []) fetched).getD []) true) 3).1
        { st with translation_count := some (st.translation_count.getD 0 + 1) }
      exact ⟨h.1, h.2⟩
    · rw [if_neg hne]
      have h := afterTranslate_counter_strat fetched (calculate_hash fetched) .incremental
        (save_translation ts) (save_translation_count ts)
        (translate_changelog (translate_with_stream oracle
          (extract_recent_versions fetched max_versions_to_translate) false) 3).1
        { st with translation_count := some (st.translation_count.getD 0 + 1) }
      exact ⟨h.1, h.2⟩

theorem c1_policy_witness :
    (run "t".toList "# C\nv1\nv2".toList (fun _ _ _ => Except.ok ("訳".toList, 1, 2))
        ⟨none, some "# C\nv1".toList, some 3, none, none⟩).1.translation_count = some 4 :=
  ((c1_policy "t".toList "# C\nv1\nv2".toList (fun _ _ _ => Except.ok ("訳".toList, 1, 2))
    ⟨none, some "# C\nv1".toList, some 3, none, none⟩ (by simp)).2.2 rfl (by decide)).1

end Translate

